import Mathlib

/-!
Verification development for the AIOps-Assistant repository.

The definitions below are shallow embeddings of the Python sources:

* `probes/database.py` — the database probe tools (`ListServers._run`,
  `ListDatabases._run`, `_unknown_db_type`, `_db_keys`);
* `conversation.py` — the hand-rolled conversation loop
  (`Conversation.run_prompt_old`, `Conversation.reset`) and the agent
  configuration of `Conversation.__init__`;
* `models/openai_gpt.py` — the response-normalisation part of
  `OpenaiGPT.run_prompt`, together with a model of the `json.dumps` /
  `json.loads` pair it uses for function-call arguments.

Machine strings are Lean `String`s; Python `str.lower` is modelled on the
ASCII letters (`Char.toLower`), which covers every string the program
compares against its ASCII key tables.
-/

/-- Python `str.lower`, modelled character-wise on the string's data
(ASCII letter folding, as performed by `Char.toLower`). -/
def pyLower (s : String) : String := String.mk (s.data.map Char.toLower)

/-- `_db_keys` from `probes/database.py`: the accepted database types. -/
def db_keys : List String := ["mysql", "postgresql", "mongodb"]

/-- `_unknown_db_type` from `probes/database.py`. -/
def unknown_db_type (key : String) : String :=
  "The provided database type " ++ key ++ " is not valid."

/-- One row of the static server table inside `ListServers._run`. -/
structure Server where
  name : String
  type : String
  hostname : String

/-- The static `servers` table of `ListServers._run` (lines 90-96). -/
def servers : List Server :=
  [ ⟨"sr-dbs01", "MySQL", "sr-dbs01.core.lennoxconsulting.com.au"⟩,
    ⟨"sr-dbs02", "MongoDB", "sr-dbs02.core.lennoxconsulting.com.au"⟩,
    ⟨"sr-dbs03", "PostgreSQL", "sr-dbs03.core.lennoxconsulting.com.au"⟩,
    ⟨"sr-dbs04", "MySQL", "sr-dbs04.lab.lennoxconsulting.com.au"⟩,
    ⟨"sr-dbs04", "PostgreSQL", "sr-dbs04.lab.lennoxconsulting.com.au"⟩ ]

/-- The CSV line printed for one server row (line 111). -/
def serverRow (s : Server) : String :=
  s.name ++ "," ++ s.type ++ "," ++ s.hostname ++ "\n"

/-- Shallow embedding of `ListServers._run` (`probes/database.py` 67-113).
`none` models Python `None`; a missing argument defaults to `''`, i.e.
`some ""`.  Note the loop compares the lowercased filter with the
unlowercased `server['type']`, exactly as the source does. -/
def listServers_run (db_type : Option String) : String :=
  let dt := pyLower (db_type.getD "")
  if dt ≠ "" ∧ dt ∉ db_keys then
    unknown_db_type dt
  else
    servers.foldl
      (fun output s => if dt = "" ∨ dt = s.type then output ++ serverRow s else output)
      "Server Name,Database Type,Hostname\n"

/-- One row of the static database table inside `ListDatabases._run`. -/
structure DatabaseRow where
  name : String
  type : String
  server : String

/-- The static `databases` table of `ListDatabases._run` (lines 158-165). -/
def databases : List DatabaseRow :=
  [ ⟨"netbox", "PostgreSQL", "sr-dbs03"⟩,
    ⟨"netbox-test", "PostgreSQL", "sr-dbs04"⟩,
    ⟨"netbox-dev", "PostgreSQL", "sr-dbs04"⟩,
    ⟨"taiga", "MySQL", "sr-dbs01"⟩,
    ⟨"homeassistant", "MySQL", "sr-dbs01"⟩,
    ⟨"wordpress", "MySQL", "sr-dbs01"⟩ ]

/-- Shallow embedding of `ListDatabases._run` (`probes/database.py` 130-185). -/
def listDatabases_run (db_server db_type : Option String) : String :=
  let ds := pyLower (db_server.getD "")
  let dt := pyLower (db_type.getD "")
  if dt ≠ "" ∧ dt ∉ db_keys then
    unknown_db_type dt
  else
    databases.foldl
      (fun output db =>
        if (dt = "" ∨ dt = pyLower db.type) ∧ (ds = "" ∨ ds = pyLower db.server) then
          output ++ db.name ++ "," ++ db.type ++ "," ++ db.server ++ "\n"
        else output)
      "Database Name,Database Type,Database Server\n"

mutual
/-- JSON values as handled by Python's `json` module for function-call
argument payloads.  Numbers are modelled as integers (floating point is
outside the shallow embedding); arrays and objects use bespoke mutual
lists so every recursion below is structural.  An object is the items of
a Python `dict` in insertion order. -/
inductive Json where
  | null : Json
  | bool (b : Bool) : Json
  | num (n : Int) : Json
  | str (s : String) : Json
  | arr (elems : JList) : Json
  | obj (fields : JObj) : Json
/-- Array elements of a `Json.arr`. -/
inductive JList where
  | nil : JList
  | cons (hd : Json) (tl : JList) : JList
/-- Key/value items of a `Json.obj`. -/
inductive JObj where
  | nil : JObj
  | cons (key : String) (val : Json) (tl : JObj) : JObj
end

/-- A decoded `function_call` entry of a message dict (`conversation.py`):
the function name plus its (optionally present) decoded arguments. -/
structure FunctionCall where
  name : String
  arguments : Option Json

/-- One message dict of the conversation history: `role`, optional
`content`, optional `function_call`, optional `name`. -/
structure Msg where
  role : String
  content : Option String
  function_call : Option FunctionCall
  name : Option String

/-- The dict returned by `Model.run_prompt`: `next_step` (the backend's
finish reason) and `message`. -/
structure ModelResponse where
  next_step : String
  message : Msg

/-- `{'role': 'user', 'content': prompt}` appended at `conversation.py`
line 161. -/
def userMsg (content : String) : Msg := ⟨"user", some content, none, none⟩

/-- The `{'role': 'function', 'name': .., 'content': ..}` message appended
at lines 183-189, with content produced by `controller.function_call`
(`fc`, kept as a parameter: the probe controller is an external
collaborator of the loop). -/
def functionMsg (fc : String → Option Json → String) (call : FunctionCall) : Msg :=
  ⟨"function", some (fc call.name call.arguments), none, some call.name⟩

/-- Outcome of the `while True` loop of `run_prompt_old` under explicit
fuel: `done` is the `break`-and-return path (carrying the returned
`response['message']` and the final `self._prompts`); `outOfFuel` means
the loop is still iterating after `fuel` rounds; `keyError` is the Python
`KeyError` raised when a `'function_call'` step carries no
`function_call` entry in its message. -/
inductive RunResult where
  | done (message : Msg) (prompts : List Msg) : RunResult
  | outOfFuel (prompts : List Msg) : RunResult
  | keyError (prompts : List Msg) : RunResult

/-- The `self._prompts` history recorded in a `RunResult`. -/
def RunResult.prompts : RunResult → List Msg
  | .done _ p => p
  | .outOfFuel p => p
  | .keyError p => p

/-- The `while True` body of `Conversation.run_prompt_old`
(`conversation.py` 163-197).  `responses i` is the backend's `i`-th reply
of this turn (the external model is an arbitrary oracle stream).  Every
iteration first appends `response['message']`; a `'function_call'`
next-step appends the function-role result message and re-enters the
loop; any other next-step (`'stop'`, or the logged unknown/error case)
breaks and returns the message. -/
def runLoop (responses : ℕ → ModelResponse) (fc : String → Option Json → String) :
    ℕ → ℕ → List Msg → RunResult
  | 0, _, prompts => .outOfFuel prompts
  | fuel + 1, i, prompts =>
    let resp := responses i
    let prompts1 := prompts ++ [resp.message]
    if resp.next_step = "function_call" then
      match resp.message.function_call with
      | none => .keyError prompts1
      | some call => runLoop responses fc fuel (i + 1) (prompts1 ++ [functionMsg fc call])
    else
      .done resp.message prompts1

/-- `Conversation.run_prompt_old` (`conversation.py` 157-199): append the
user message to `self._prompts`, then run the loop. -/
def run_prompt_old (responses : ℕ → ModelResponse)
    (fc : String → Option Json → String) (fuel : ℕ) (prompt : String)
    (prompts : List Msg) : RunResult :=
  runLoop responses fc fuel 0 (prompts ++ [userMsg prompt])

/-- `Conversation.reset` (`conversation.py` 140-149): `self._prompts = []`. -/
def reset (_prompts : List Msg) : List Msg := []

/-- The primed history a session starts with for the hand-rolled loop:
`__init__` injects no prompts and the priming injection in `reset` is an
unimplemented TODO in the source, so the primed state is empty. -/
def initialPrompts : List Msg := []

/-- `max_iterations = 3` as passed to the framework agent in
`Conversation.__init__` (`conversation.py` line 133); it configures only
the framework-delegated `run_prompt` path. -/
def agent_max_iterations : ℕ := 3

/-- The messages appended by `k` consecutive function-call round-trips
starting at backend reply `i`: per round-trip, the assistant's
function-call message followed by the function-role result message. -/
def roundTrips (responses : ℕ → ModelResponse) (fc : String → Option Json → String)
    (calls : ℕ → FunctionCall) : ℕ → ℕ → List Msg
  | _, 0 => []
  | i, k + 1 =>
    (responses i).message :: functionMsg fc (calls i) :: roundTrips responses fc calls (i + 1) k

/-- A backend oracle whose every reply is a transport-level `'error'`
outcome with an attached message. -/
def errResponses : ℕ → ModelResponse :=
  fun _ => ⟨"error", ⟨"assistant", some "backend failure", none, none⟩⟩

/-- A probe dispatcher returning a fixed string (its value is irrelevant
to the loop claims). -/
def constFc : String → Option Json → String := fun _ _ => "probe result"

/-- A backend oracle that requests a probe function call on every reply. -/
def fcResponses : ℕ → ModelResponse :=
  fun _ => ⟨"function_call",
    ⟨"assistant", none, some ⟨"Database - List Database Servers", none⟩, none⟩⟩

/-- Decimal digit character `0`-`9`. -/
def digitCh (d : ℕ) : Char := Char.ofNat (48 + d)

/-- Lowercase hexadecimal digit character, as Python emits in `\uXXXX`. -/
def hexCh (d : ℕ) : Char := Char.ofNat (if d < 10 then 48 + d else 87 + d)

/-- The four hex digits of `n < 0x10000`. -/
def toHex4 (n : ℕ) : List Char :=
  [hexCh (n / 4096 % 16), hexCh (n / 256 % 16), hexCh (n / 16 % 16), hexCh (n % 16)]

/-- Numeric value of a hexadecimal digit character. -/
def hexVal (c : Char) : Option ℕ :=
  if 48 ≤ c.toNat ∧ c.toNat ≤ 57 then some (c.toNat - 48)
  else if 97 ≤ c.toNat ∧ c.toNat ≤ 102 then some (c.toNat - 87)
  else if 65 ≤ c.toNat ∧ c.toNat ≤ 70 then some (c.toNat - 55)
  else none

/-- JSON string escaping of one character, after Python's `json.dumps`:
the two mandatory escapes, the short control escapes, and `\u00XX` for
the remaining control characters.  Non-ASCII characters are emitted raw
(`ensure_ascii=False` behaviour), which does not affect the
encode/decode round trip the source relies on. -/
def escapeChar (c : Char) : List Char :=
  if c = '"' then ['\\', '"']
  else if c = '\\' then ['\\', '\\']
  else if c = '\n' then ['\\', 'n']
  else if c = '\t' then ['\\', 't']
  else if c = '\r' then ['\\', 'r']
  else if c.toNat = 8 then ['\\', 'b']
  else if c.toNat = 12 then ['\\', 'f']
  else if c.toNat < 32 then '\\' :: 'u' :: toHex4 c.toNat
  else [c]

/-- Escape every character of a string body. -/
def escapeList : List Char → List Char
  | [] => []
  | c :: cs => escapeChar c ++ escapeList cs

/-- The serialised form of a JSON string literal. -/
def printStr (s : String) : List Char :=
  '"' :: (escapeList s.data ++ ['"'])

/-- Little-endian decimal digit values of `m`, with explicit fuel so the
definition is structural (any `fuel ≥ m` gives all digits). -/
def natDigitsRev : ℕ → ℕ → List ℕ
  | 0, _ => []
  | _ + 1, 0 => []
  | fuel + 1, m + 1 => ((m + 1) % 10) :: natDigitsRev fuel ((m + 1) / 10)

/-- Big-endian decimal digits of a natural number. -/
def natDigits (m : ℕ) : List Char :=
  if m = 0 then ['0'] else (natDigitsRev m m).reverse.map digitCh

/-- The serialised form of a JSON (integer) number, as Python's `str`. -/
def printNum (n : ℤ) : List Char :=
  if n < 0 then '-' :: natDigits n.natAbs else natDigits n.natAbs

mutual
/-- Serialisation of a JSON value after Python `json.dumps` with its
default separators (`", "` between items, `": "` after a key). -/
def printJ : Json → List Char
  | .num n => printNum n
  | .str s => printStr s
  | .bool false => ['f', 'a', 'l', 's', 'e']
  | .bool true => ['t', 'r', 'u', 'e']
  | .null => ['n', 'u', 'l', 'l']
  | .obj .nil => ['\x7b', '\x7d']
  | .obj (.cons k v tl) =>
      '\x7b' :: (printStr k ++ ':' :: ' ' :: printJ v ++ printTailO tl) ++ ['\x7d']
  | .arr .nil => ['[', ']']
  | .arr (.cons v tl) => '[' :: (printJ v ++ printTailL tl) ++ [']']
/-- Remaining array elements, each preceded by `", "`. -/
def printTailL : JList → List Char
  | .nil => []
  | .cons v tl => ',' :: ' ' :: printJ v ++ printTailL tl
/-- Remaining object items, each preceded by `", "`. -/
def printTailO : JObj → List Char
  | .nil => []
  | .cons k v tl => ',' :: ' ' :: (printStr k ++ ':' :: ' ' :: printJ v ++ printTailO tl)
end

/-- Is `c` an ASCII decimal digit? -/
def isDigitCh (c : Char) : Bool := 48 ≤ c.toNat && c.toNat ≤ 57

/-- Is `c` JSON whitespace? -/
def isWsCh (c : Char) : Bool := c.toNat = 32 || c.toNat = 10 || c.toNat = 9 || c.toNat = 13

/-- Drop leading JSON whitespace. -/
def skipWs : List Char → List Char
  | [] => []
  | c :: r => if isWsCh c then skipWs r else c :: r

/-- Read a maximal run of decimal digits, accumulating their value. -/
def readDigits : List Char → ℕ → ℕ × List Char
  | [], acc => (acc, [])
  | c :: r, acc =>
    if isDigitCh c then readDigits r (acc * 10 + (c.toNat - 48)) else (acc, c :: r)

/-- Decode a JSON string body (the part after the opening quote) up to
and including the closing quote, after Python `json.loads`: the standard
escapes, `\uXXXX`, and a strict-mode rejection of raw control
characters.  The fuel only bounds recursion; one unit per decoded
character plus one suffices. -/
def parseStrAux : ℕ → List Char → Option (List Char × List Char)
  | 0, _ => none
  | _ + 1, [] => none
  | fuel + 1, c :: r =>
    if c = '"' then some ([], r)
    else if c = '\\' then
      match r with
      | [] => none
      | e :: r2 =>
        if e = '"' then (parseStrAux fuel r2).map (fun p => ('"' :: p.1, p.2))
        else if e = '\\' then (parseStrAux fuel r2).map (fun p => ('\\' :: p.1, p.2))
        else if e = '/' then (parseStrAux fuel r2).map (fun p => ('/' :: p.1, p.2))
        else if e = 'n' then (parseStrAux fuel r2).map (fun p => ('\n' :: p.1, p.2))
        else if e = 't' then (parseStrAux fuel r2).map (fun p => ('\t' :: p.1, p.2))
        else if e = 'r' then (parseStrAux fuel r2).map (fun p => ('\r' :: p.1, p.2))
        else if e = 'b' then (parseStrAux fuel r2).map (fun p => (Char.ofNat 8 :: p.1, p.2))
        else if e = 'f' then (parseStrAux fuel r2).map (fun p => (Char.ofNat 12 :: p.1, p.2))
        else if e = 'u' then
          match r2 with
          | h1 :: h2 :: h3 :: h4 :: r3 =>
            match hexVal h1, hexVal h2, hexVal h3, hexVal h4 with
            | some a, some b, some c2, some d =>
              if h : (((a * 16 + b) * 16 + c2) * 16 + d).isValidChar then
                (parseStrAux fuel r3).map
                  (fun p => (Char.ofNatAux (((a * 16 + b) * 16 + c2) * 16 + d) h :: p.1, p.2))
              else none
            | _, _, _, _ => none
          | _ => none
        else none
    else if c.toNat < 32 then none
    else (parseStrAux fuel r).map (fun p => (c :: p.1, p.2))

/-- Parser mode: a JSON value, the elements of a non-empty array, or the
items of a non-empty object. -/
inductive PMode where
  | value : PMode
  | elems : PMode
  | fields : PMode

/-- Parser output for the three modes. -/
inductive POut where
  | val (v : Json) : POut
  | list (l : JList) : POut
  | items (o : JObj) : POut

/-- Recursive-descent decoder after Python `json.loads`, on the
integer-number JSON fragment that `printJ` produces.  The fuel decreases
on every recursive call; `need` many units suffice. -/
def parseA : ℕ → PMode → List Char → Option (POut × List Char)
  | 0, _, _ => none
  | fuel + 1, .value, s =>
    match skipWs s with
    | [] => none
    | c :: r =>
      if isDigitCh c then
        match readDigits (c :: r) 0 with
        | (m, r2) => some (.val (.num (m : ℤ)), r2)
      else if c = '-' then
        match r with
        | [] => none
        | c2 :: r2 =>
          if isDigitCh c2 then
            match readDigits (c2 :: r2) 0 with
            | (m, r3) => some (.val (.num (-(m : ℤ))), r3)
          else none
      else if c = '"' then
        match parseStrAux (r.length + 1) r with
        | some (cs, r1) => some (.val (.str (String.mk cs)), r1)
        | none => none
      else if c = '[' then
        match skipWs r with
        | [] => none
        | c2 :: r2 =>
          if c2 = ']' then some (.val (.arr .nil), r2)
          else
            match parseA fuel .elems (c2 :: r2) with
            | some (.list l, r3) => some (.val (.arr l), r3)
            | _ => none
      else if c = '\x7b' then
        match skipWs r with
        | [] => none
        | c2 :: r2 =>
          if c2 = '\x7d' then some (.val (.obj .nil), r2)
          else
            match parseA fuel .fields (c2 :: r2) with
            | some (.items o, r3) => some (.val (.obj o), r3)
            | _ => none
      else if c = 'n' then
        match r with
        | 'u' :: 'l' :: 'l' :: r2 => some (.val .null, r2)
        | _ => none
      else if c = 't' then
        match r with
        | 'r' :: 'u' :: 'e' :: r2 => some (.val (.bool true), r2)
        | _ => none
      else if c = 'f' then
        match r with
        | 'a' :: 'l' :: 's' :: 'e' :: r2 => some (.val (.bool false), r2)
        | _ => none
      else none
  | fuel + 1, .elems, s =>
    match parseA fuel .value s with
    | some (.val v, r) =>
      (match skipWs r with
       | [] => none
       | c :: r2 =>
         if c = ']' then some (.list (.cons v .nil), r2)
         else if c = ',' then
           match parseA fuel .elems r2 with
           | some (.list l, r3) => some (.list (.cons v l), r3)
           | _ => none
         else none)
    | _ => none
  | fuel + 1, .fields, s =>
    match skipWs s with
    | [] => none
    | c :: r =>
      if c = '"' then
        match parseStrAux (r.length + 1) r with
        | some (cs, r1) =>
          (match skipWs r1 with
           | [] => none
           | c2 :: r2 =>
             if c2 = ':' then
               match parseA fuel .value r2 with
               | some (.val v, r3) =>
                 (match skipWs r3 with
                  | [] => none
                  | c3 :: r4 =>
                    if c3 = '\x7d' then some (.items (.cons (String.mk cs) v .nil), r4)
                    else if c3 = ',' then
                      match parseA fuel .fields r4 with
                      | some (.items o, r5) => some (.items (.cons (String.mk cs) v o), r5)
                      | _ => none
                    else none)
               | _ => none
             else none)
        | none => none
      else none

/-- Python `json.loads` on the fragment above: parse one value and demand
nothing but whitespace after it. -/
def jsonLoads (s : String) : Option Json :=
  match parseA (s.length + 1) .value s.data with
  | some (.val v, r) => if skipWs r = [] then some v else none
  | _ => none

/-- Python `json.dumps` (default settings) on the fragment above, as
applied to function-call arguments at `models/openai_gpt.py` line 65. -/
def jsonDumps (v : Json) : String := String.mk (printJ v)

/-- The continuation after a printed value never begins with a digit (so
the greedy number reader stops exactly at a value boundary). -/
def headNotDigit : List Char → Prop
  | [] => True
  | c :: _ => isDigitCh c = false

def digitsVal (acc : ℕ) (l : List Char) : ℕ :=
  l.foldl (fun a c => a * 10 + (c.toNat - 48)) acc

mutual
/-- Fuel sufficient for `parseA` on a printed value. -/
def needJ : Json → ℕ
  | .null => 1
  | .bool _ => 1
  | .num _ => 1
  | .str _ => 1
  | .arr .nil => 1
  | .arr (.cons v tl) => 1 + needE v tl
  | .obj .nil => 1
  | .obj (.cons _ v tl) => 1 + needF v tl
termination_by v => sizeOf v
/-- Fuel sufficient for `parseA` in `elems` mode on a printed non-empty
array body. -/
def needE : Json → JList → ℕ
  | v, .nil => 1 + needJ v
  | v, .cons v2 tl => 1 + needJ v + needE v2 tl
termination_by v tl => 1 + sizeOf v + sizeOf tl
/-- Fuel sufficient for `parseA` in `fields` mode on a printed non-empty
object body. -/
def needF : Json → JObj → ℕ
  | v, .nil => 1 + needJ v
  | v, .cons _ v2 tl => 1 + needJ v + needF v2 tl
termination_by v o => 1 + sizeOf v + sizeOf o
end

/-- The `function_call` entry of a backend message as transmitted: the
arguments are still an encoded string. -/
structure RawFunctionCall where
  name : String
  arguments : Option String

/-- A backend message as received from the API. -/
structure RawMessage where
  role : String
  content : Option String
  function_call : Option RawFunctionCall

/-- One `api_response['choices'][0]`: the finish reason (absent models a
missing key) and the message. -/
structure ApiChoice where
  finish_reason : Option String
  message : RawMessage

/-- The arguments entry after `run_prompt`'s post-processing: either left
as the transmitted string (when Python's truthiness test skipped the
decode) or the decoded JSON value. -/
inductive ArgsVal where
  | raw (s : String) : ArgsVal
  | decoded (v : Json) : ArgsVal

/-- `function_call` entry of the returned `prompt_response['message']`. -/
structure GptFunctionCall where
  name : String
  arguments : Option ArgsVal

/-- The returned `prompt_response['message']`. -/
structure GptMessage where
  role : String
  content : Option String
  function_call : Option GptFunctionCall

/-- The returned `prompt_response` dict. -/
structure GptResponse where
  next_step : String
  message : GptMessage

/-- Shallow embedding of the response-normalisation tail of
`OpenaiGPT.run_prompt` (`models/openai_gpt.py` 104-119), as a function of
the backend's first choice: `next_step` is the finish reason (`'error'`
when absent), and when a function call with a truthy (present, non-empty)
arguments string is attached, the string is decoded with `json.loads`.
`Except.error` models the uncaught `json.JSONDecodeError` the source
lets propagate. -/
def gpt_normalize_response (choice : ApiChoice) : Except String GptResponse :=
  let next_step := choice.finish_reason.getD "error"
  match choice.message.function_call with
  | none =>
    .ok ⟨next_step, ⟨choice.message.role, choice.message.content, none⟩⟩
  | some call =>
    match call.arguments with
    | none =>
      .ok ⟨next_step, ⟨choice.message.role, choice.message.content, some ⟨call.name, none⟩⟩⟩
    | some argStr =>
      if argStr = "" then
        .ok ⟨next_step,
          ⟨choice.message.role, choice.message.content, some ⟨call.name, some (.raw argStr)⟩⟩⟩
      else
        match jsonLoads argStr with
        | some v =>
          .ok ⟨next_step,
            ⟨choice.message.role, choice.message.content, some ⟨call.name, some (.decoded v)⟩⟩⟩
        | none => .error "json.decoder.JSONDecodeError"

theorem pyLower_ne_empty {s : String} (h : s ≠ "") : pyLower s ≠ "" := by
  intro hl
  apply h
  have hd : s.data.map Char.toLower = [] := by
    have := congrArg String.data hl
    simpa [pyLower] using this
  have hdata : s.data = [] := List.map_eq_nil_iff.mp hd
  show String.mk s.data = String.mk []
  exact congrArg String.mk hdata

/-- C1: the spec expects `listServers_run (some "mysql")` to return exactly
the MySQL rows, but the source compares the lowercased filter against the
unlowercased row type (`'mysql' == 'MySQL'` is false), so every accepted
type — in any casing — yields the CSV header and no data rows.  This
evaluates the embedded code at the failing inputs. -/
theorem listServers_mysql_returns_header_only :
    listServers_run (some "mysql") = "Server Name,Database Type,Hostname\n" ∧
    listServers_run (some "MySQL") = "Server Name,Database Type,Hostname\n" := by
  constructor <;> rfl

/-- C9: with the `db_type` argument missing (`some ""`), `None`, or the
empty string, `ListServers._run` returns the CSV header followed by a row
for every one of the five servers in the static table. -/
theorem listServers_unfiltered_returns_all_rows :
    listServers_run none
        = "Server Name,Database Type,Hostname\n" ++ String.join (servers.map serverRow) ∧
    listServers_run (some "")
        = "Server Name,Database Type,Hostname\n" ++ String.join (servers.map serverRow) ∧
    servers.length = 5 := by
  refine ⟨by rfl, by rfl, by rfl⟩

/-- C10: for every non-empty string whose lowercase form is not an accepted
database type, both probe operations return exactly the message
`The provided database type {lowered} is not valid.` (and, being total
functions, they never raise). -/
theorem invalid_db_type_yields_message (s : String) (hne : s ≠ "")
    (hkey : pyLower s ∉ db_keys) :
    listServers_run (some s) = unknown_db_type (pyLower s) ∧
    ∀ db_server : Option String,
      listDatabases_run db_server (some s) = unknown_db_type (pyLower s) := by
  have hne' : pyLower s ≠ "" := pyLower_ne_empty hne
  constructor
  · simp only [listServers_run, Option.getD_some]
    rw [if_pos ⟨hne', hkey⟩]
  · intro db_server
    simp only [listDatabases_run, Option.getD_some]
    rw [if_pos ⟨hne', hkey⟩]

/-- Witness for C10 at the concrete input `"Oracle"`. -/
theorem invalid_db_type_yields_message_witness :
    listServers_run (some "Oracle") = unknown_db_type "oracle" ∧
    listDatabases_run none (some "Oracle") = unknown_db_type "oracle" := by
  have h := invalid_db_type_yields_message "Oracle" (by decide) (by decide)
  exact ⟨h.1.trans (by rfl), (h.2 none).trans (by rfl)⟩

/-- A turn whose model reply does not request a function call breaks the
loop immediately, appending exactly that reply. -/
theorem runLoop_break (responses : ℕ → ModelResponse)
    (fc : String → Option Json → String) (fuel i : ℕ) (prompts : List Msg)
    (hfuel : 1 ≤ fuel) (hne : (responses i).next_step ≠ "function_call") :
    runLoop responses fc fuel i prompts
      = .done (responses i).message (prompts ++ [(responses i).message]) := by
  cases fuel with
  | zero => omega
  | succ f => simp only [runLoop, if_neg hne]

/-- C8: `reset()` is idempotent, and its result is the initial primed
state of the session. -/
theorem reset_idempotent_and_initial (prompts : List Msg) :
    reset (reset prompts) = reset prompts ∧ reset prompts = initialPrompts :=
  ⟨rfl, rfl⟩

/-- C6: a turn whose (first) model reply is a final answer (`'stop'`)
changes the history by appending exactly the user message and the
assistant's reply: length grows by exactly 2.  The pre-history `prompts`
is arbitrary, so this covers every turn of any sequence of
final-answer-only turns. -/
theorem final_answer_turn_grows_history_by_two
    (responses : ℕ → ModelResponse) (fc : String → Option Json → String)
    (fuel : ℕ) (prompt : String) (prompts : List Msg)
    (hfuel : 1 ≤ fuel) (hstop : (responses 0).next_step = "stop") :
    run_prompt_old responses fc fuel prompt prompts
      = .done (responses 0).message (prompts ++ [userMsg prompt, (responses 0).message]) ∧
    (run_prompt_old responses fc fuel prompt prompts).prompts.length
      = prompts.length + 2 := by
  have hne : (responses 0).next_step ≠ "function_call" := by
    rw [hstop]; decide
  have h := runLoop_break responses fc fuel 0 (prompts ++ [userMsg prompt]) hfuel hne
  rw [run_prompt_old, h]
  constructor
  · simp
  · simp [RunResult.prompts]

/-- Witness for C6: one concrete final-answer turn. -/
theorem final_answer_turn_grows_history_by_two_witness :
    run_prompt_old (fun _ => ⟨"stop", ⟨"assistant", some "hello", none, none⟩⟩)
        (fun _ _ => "unused") 3 "hi" []
      = .done ⟨"assistant", some "hello", none, none⟩
          [userMsg "hi", ⟨"assistant", some "hello", none, none⟩] ∧
    (run_prompt_old (fun _ => ⟨"stop", ⟨"assistant", some "hello", none, none⟩⟩)
        (fun _ _ => "unused") 3 "hi" []).prompts.length = 2 := by
  have h := final_answer_turn_grows_history_by_two
    (fun _ => ⟨"stop", ⟨"assistant", some "hello", none, none⟩⟩)
    (fun _ _ => "unused") 3 "hi" [] (by omega) rfl
  simpa using h

theorem roundTrips_length (responses : ℕ → ModelResponse)
    (fc : String → Option Json → String) (calls : ℕ → FunctionCall) :
    ∀ k i, (roundTrips responses fc calls i k).length = 2 * k := by
  intro k
  induction k with
  | zero => intro i; rfl
  | succ k ih => intro i; simp [roundTrips, ih (i + 1)]; omega

/-- Running the loop from reply `i` with `k` function-call replies and a
non-function-call reply after them appends the `k` round-trip blocks and
the final message, then stops. -/
theorem runLoop_function_calls (responses : ℕ → ModelResponse)
    (fc : String → Option Json → String) (calls : ℕ → FunctionCall) :
    ∀ (k i fuel : ℕ) (prompts : List Msg),
      (∀ j, j < k → (responses (i + j)).next_step = "function_call" ∧
        (responses (i + j)).message.function_call = some (calls (i + j))) →
      (responses (i + k)).next_step ≠ "function_call" →
      k + 1 ≤ fuel →
      runLoop responses fc fuel i prompts
        = .done (responses (i + k)).message
            (prompts ++ (roundTrips responses fc calls i k ++ [(responses (i + k)).message])) := by
  intro k
  induction k with
  | zero =>
    intro i fuel prompts _ hne hfuel
    have h := runLoop_break responses fc fuel i prompts (by omega) (by simpa using hne)
    rw [h]
    simp [roundTrips]
  | succ k ih =>
    intro i fuel prompts hcalls hne hfuel
    obtain ⟨f, rfl⟩ : ∃ f, fuel = f + 1 := ⟨fuel - 1, by omega⟩
    have h0 := hcalls 0 (by omega)
    rw [Nat.add_zero] at h0
    have hrec := ih (i + 1) f (prompts ++ [(responses i).message] ++ [functionMsg fc (calls i)])
      (fun j hj => by
        have := hcalls (j + 1) (by omega)
        rwa [show i + (j + 1) = i + 1 + j by omega] at this)
      (by rwa [show i + 1 + k = i + (k + 1) by omega])
      (by omega)
    simp only [runLoop, if_pos h0.1, h0.2]
    rw [hrec]
    simp [roundTrips, show i + 1 + k = i + (k + 1) by omega]

/-- C7: a user turn with `k` function-call round-trips followed by a
final answer extends the history by exactly `2 + 2 * k` messages, in
order: the user message, then per round-trip the assistant's
function-call message and the function-role result message, then the
final assistant answer (which is also the returned message). -/
theorem function_call_turn_history_growth (responses : ℕ → ModelResponse)
    (fc : String → Option Json → String) (calls : ℕ → FunctionCall)
    (k fuel : ℕ) (prompt : String) (prompts : List Msg)
    (hcalls : ∀ j, j < k → (responses j).next_step = "function_call" ∧
      (responses j).message.function_call = some (calls j))
    (hstop : (responses k).next_step = "stop")
    (hfuel : k + 1 ≤ fuel) :
    run_prompt_old responses fc fuel prompt prompts
      = .done (responses k).message
          ((prompts ++ [userMsg prompt])
            ++ (roundTrips responses fc calls 0 k ++ [(responses k).message])) ∧
    (run_prompt_old responses fc fuel prompt prompts).prompts.length
      = prompts.length + 2 + 2 * k := by
  have h := runLoop_function_calls responses fc calls k 0 fuel (prompts ++ [userMsg prompt])
    (fun j hj => by simpa using hcalls j hj)
    (by simp [hstop])
    hfuel
  rw [run_prompt_old, h]
  refine ⟨by simp, ?_⟩
  simp [RunResult.prompts, roundTrips_length]
  omega

/-- Witness for C7: one concrete turn with a single round-trip (`k = 1`):
history grows by 4 messages in the documented order. -/
theorem function_call_turn_history_growth_witness :
    run_prompt_old
        (fun i => if i = 0 then
            ⟨"function_call", ⟨"assistant", none, some ⟨"list_servers", none⟩, none⟩⟩
          else ⟨"stop", ⟨"assistant", some "two servers", none, none⟩⟩)
        (fun _ _ => "csv data") 3 "list servers" []
      = .done ⟨"assistant", some "two servers", none, none⟩
          (([] ++ [userMsg "list servers"])
            ++ (roundTrips
                  (fun i => if i = 0 then
                      ⟨"function_call", ⟨"assistant", none, some ⟨"list_servers", none⟩, none⟩⟩
                    else ⟨"stop", ⟨"assistant", some "two servers", none, none⟩⟩)
                  (fun _ _ => "csv data") (fun _ => ⟨"list_servers", none⟩) 0 1
                ++ [⟨"assistant", some "two servers", none, none⟩])) := by
  have h := function_call_turn_history_growth
    (fun i => if i = 0 then
        ⟨"function_call", ⟨"assistant", none, some ⟨"list_servers", none⟩, none⟩⟩
      else ⟨"stop", ⟨"assistant", some "two servers", none, none⟩⟩)
    (fun _ _ => "csv data") (fun _ => ⟨"list_servers", none⟩) 1 3 "list servers" []
    (fun j hj => by interval_cases j; exact ⟨rfl, rfl⟩)
    rfl (by omega)
  exact h.1

/-- C4 counterexample: after an `'error'` turn the history is NOT just
the user message — `run_prompt_old` appends `response['message']` before
inspecting `next_step`, so the returned error message is appended too. -/
theorem error_turn_leaves_extra_message :
    (run_prompt_old errResponses constFc 5 "hi" []).prompts
        = [userMsg "hi", ⟨"assistant", some "backend failure", none, none⟩] ∧
    (run_prompt_old errResponses constFc 5 "hi" []).prompts ≠ [userMsg "hi"] := by
  have h1 : (run_prompt_old errResponses constFc 5 "hi" []).prompts
      = [userMsg "hi", ⟨"assistant", some "backend failure", none, none⟩] := rfl
  refine ⟨h1, fun h => ?_⟩
  rw [h1] at h
  have := congrArg List.length h
  simp at this

/-- C4 amended: on an `'error'` outcome the loop breaks immediately — the
model is not re-invoked and no function-role message is appended — and
the error-shaped message is returned to the caller; the history keeps the
appended user message, but additionally gains the returned
`response['message']` (history grows by 2, not by 1). -/
theorem error_turn_breaks_and_appends_response (responses : ℕ → ModelResponse)
    (fc : String → Option Json → String) (fuel : ℕ) (prompt : String)
    (prompts : List Msg) (hfuel : 1 ≤ fuel)
    (herr : (responses 0).next_step = "error") :
    run_prompt_old responses fc fuel prompt prompts
      = .done (responses 0).message (prompts ++ [userMsg prompt, (responses 0).message]) := by
  have hne : (responses 0).next_step ≠ "function_call" := by
    rw [herr]; decide
  have h := runLoop_break responses fc fuel 0 (prompts ++ [userMsg prompt]) hfuel hne
  rw [run_prompt_old, h]
  simp

/-- Witness for the amended C4 at a concrete error turn. -/
theorem error_turn_breaks_and_appends_response_witness :
    run_prompt_old errResponses constFc 5 "hi" []
      = .done (errResponses 0).message ([] ++ [userMsg "hi", (errResponses 0).message]) :=
  error_turn_breaks_and_appends_response errResponses constFc 5 "hi" [] (by omega) rfl

/-- If every backend reply requests a function call, the loop never
breaks: whatever the fuel, it is still running, having appended one
round-trip block per iteration. -/
theorem runLoop_all_function_calls (responses : ℕ → ModelResponse)
    (fc : String → Option Json → String) (calls : ℕ → FunctionCall)
    (h : ∀ i, (responses i).next_step = "function_call" ∧
      (responses i).message.function_call = some (calls i)) :
    ∀ (fuel i : ℕ) (prompts : List Msg),
      runLoop responses fc fuel i prompts
        = .outOfFuel (prompts ++ roundTrips responses fc calls i fuel) := by
  intro fuel
  induction fuel with
  | zero => intro i prompts; simp [runLoop, roundTrips]
  | succ f ih =>
    intro i prompts
    simp only [runLoop, if_pos (h i).1, (h i).2]
    rw [ih (i + 1)]
    simp [roundTrips]

/-- C2 counterexample: with the hand-rolled loop, a model that keeps
requesting function calls is never forced into a final answer — for no
amount of fuel does `run_prompt_old` reach the `done` (returned answer)
state, refuting the claimed at-most-3-round-trips termination policy. -/
theorem run_prompt_old_never_forces_final_answer :
    ¬ ∃ (fuel : ℕ) (message : Msg) (prompts2 : List Msg),
        run_prompt_old fcResponses constFc fuel "list servers" []
          = .done message prompts2 := by
  rintro ⟨fuel, m, p, hdone⟩
  have h := runLoop_all_function_calls fcResponses constFc
    (fun _ => ⟨"Database - List Database Servers", none⟩)
    (fun _ => ⟨rfl, rfl⟩) fuel 0 ([] ++ [userMsg "list servers"])
  rw [run_prompt_old, h] at hdone
  simp at hdone

/-- C2 amended: `run_prompt_old` enforces no maximum number of
function-call round-trips: for every backend stream that always requests
a function call, the loop is still running after any number of
iterations (it never produces a final answer, growing the history by one
round-trip block per iteration).  The observed limit of 3 exists only as
the `max_iterations` configuration of the framework-delegated agent. -/
theorem no_round_trip_limit_in_run_prompt_old (responses : ℕ → ModelResponse)
    (fc : String → Option Json → String) (calls : ℕ → FunctionCall)
    (prompt : String) (prompts : List Msg)
    (h : ∀ i, (responses i).next_step = "function_call" ∧
      (responses i).message.function_call = some (calls i)) :
    (∀ fuel : ℕ,
      run_prompt_old responses fc fuel prompt prompts
        = .outOfFuel ((prompts ++ [userMsg prompt])
            ++ roundTrips responses fc calls 0 fuel)) ∧
    agent_max_iterations = 3 := by
  refine ⟨fun fuel => ?_, rfl⟩
  rw [run_prompt_old, runLoop_all_function_calls responses fc calls h fuel 0]

/-- Witness for the amended C2: two iterations of the concrete
always-function-call stream, still out of fuel. -/
theorem no_round_trip_limit_in_run_prompt_old_witness :
    run_prompt_old fcResponses constFc 2 "list servers" []
      = .outOfFuel (([] ++ [userMsg "list servers"])
          ++ roundTrips fcResponses constFc
              (fun _ => ⟨"Database - List Database Servers", none⟩) 0 2) ∧
    agent_max_iterations = 3 := by
  have h := no_round_trip_limit_in_run_prompt_old fcResponses constFc
    (fun _ => ⟨"Database - List Database Servers", none⟩) "list servers" []
    (fun _ => ⟨rfl, rfl⟩)
  exact ⟨h.1 2, h.2⟩

theorem skipWs_not_ws {c : Char} {l : List Char} (h : isWsCh c = false) :
    skipWs (c :: l) = c :: l := by
  simp [skipWs, h]

theorem ofNatAux_toNat (c : Char) (h : c.toNat.isValidChar) : Char.ofNatAux c.toNat h = c := by
  have h2 := Char.ofNat_toNat c
  rwa [Char.ofNat, dif_pos h] at h2

theorem hexVal_hexCh (d : ℕ) (hd : d < 16) : hexVal (hexCh d) = some d := by
  interval_cases d <;> rfl

theorem parse_escapeChar (c : Char) (f : ℕ) (t : List Char) :
    parseStrAux (f + 1) (escapeChar c ++ t)
      = (parseStrAux f t).map (fun p => (c :: p.1, p.2)) := by
  by_cases h1 : c = '"'
  · subst h1; simp [escapeChar, parseStrAux]
  by_cases h2 : c = '\\'
  · subst h2; simp [escapeChar, parseStrAux]
  by_cases h3 : c = '\n'
  · subst h3; simp [escapeChar, parseStrAux]
  by_cases h4 : c = '\t'
  · subst h4; simp [escapeChar, parseStrAux]
  by_cases h5 : c = '\r'
  · subst h5; simp [escapeChar, parseStrAux]
  by_cases h6 : c.toNat = 8
  · have hc : Char.ofNat 8 = c := by rw [← h6, Char.ofNat_toNat]
    simp [escapeChar, h1, h2, h3, h4, h5, h6, parseStrAux]
    rw [hc]
  by_cases h7 : c.toNat = 12
  · have hc : Char.ofNat 12 = c := by rw [← h7, Char.ofNat_toNat]
    simp [escapeChar, h1, h2, h3, h4, h5, h6, h7, parseStrAux]
    rw [hc]
  by_cases h8 : c.toNat < 32
  · have e1 := hexVal_hexCh (c.toNat / 4096 % 16) (by omega)
    have e2 := hexVal_hexCh (c.toNat / 256 % 16) (by omega)
    have e3 := hexVal_hexCh (c.toNat / 16 % 16) (by omega)
    have e4 := hexVal_hexCh (c.toNat % 16) (by omega)
    have hn : ((c.toNat / 4096 % 16 * 16 + c.toNat / 256 % 16) * 16 + c.toNat / 16 % 16) * 16
        + c.toNat % 16 = c.toNat := by omega
    have hvalid : (c.toNat).isValidChar := Or.inl (by omega)
    simp [escapeChar, h1, h2, h3, h4, h5, h6, h7, h8, toHex4, parseStrAux, e1, e2, e3, e4, hn,
      dif_pos, hvalid, ofNatAux_toNat]
  · simp [escapeChar, h1, h2, h3, h4, h5, h6, h7, h8, parseStrAux]

theorem parse_escList : ∀ (cs : List Char) (f : ℕ) (rest : List Char), cs.length + 1 ≤ f →
    parseStrAux f (escapeList cs ++ '"' :: rest) = some (cs, rest)
  | [], f, rest, hf => by
    obtain ⟨g, rfl⟩ : ∃ g, f = g + 1 := ⟨f - 1, by omega⟩
    simp [escapeList, parseStrAux]
  | c :: cs, f, rest, hf => by
    obtain ⟨g, rfl⟩ : ∃ g, f = g + 1 := ⟨f - 1, by omega⟩
    have ih := parse_escList cs g rest (by simp at hf ⊢; omega)
    simp [escapeList, List.append_assoc, parse_escapeChar, ih]

theorem digitCh_toNat {d : ℕ} (hd : d < 10) : (digitCh d).toNat = 48 + d := by
  interval_cases d <;> rfl

theorem isDigitCh_digitCh {d : ℕ} (hd : d < 10) : isDigitCh (digitCh d) = true := by
  interval_cases d <;> rfl

theorem isWsCh_of_digit {c : Char} (h : isDigitCh c = true) : isWsCh c = false := by
  simp [isDigitCh] at h
  simp [isWsCh]
  omega

theorem natDigitsRev_eq_digits : ∀ (fuel m : ℕ), m ≤ fuel → natDigitsRev fuel m = Nat.digits 10 m
  | 0, 0, _ => by simp [natDigitsRev]
  | 0, m + 1, h => by omega
  | fuel + 1, 0, _ => by simp [natDigitsRev]
  | fuel + 1, m + 1, h => by
    have hdiv : (m + 1) / 10 ≤ fuel := by
      have := Nat.div_lt_self (Nat.succ_pos m) (by norm_num : 1 < 10)
      omega
    rw [natDigitsRev, natDigitsRev_eq_digits fuel ((m + 1) / 10) hdiv,
      Nat.digits_def' (by norm_num : 1 < 10) (Nat.succ_pos m)]

theorem natDigits_all_digits {m : ℕ} : ∀ c ∈ natDigits m, isDigitCh c = true := by
  intro c hc
  unfold natDigits at hc
  by_cases hm : m = 0
  · simp [hm] at hc
    subst hc
    rfl
  · rw [if_neg hm, natDigitsRev_eq_digits m m le_rfl] at hc
    simp at hc
    obtain ⟨d, hd, rfl⟩ := hc
    exact isDigitCh_digitCh (Nat.digits_lt_base (by norm_num) hd)

theorem natDigits_ne_nil {m : ℕ} : natDigits m ≠ [] := by
  unfold natDigits
  by_cases hm : m = 0
  · simp [hm]
  · rw [if_neg hm, natDigitsRev_eq_digits m m le_rfl]
    simp [Nat.digits_ne_nil_iff_ne_zero, hm]

theorem readDigits_spec : ∀ (l : List Char) (acc : ℕ) (rest : List Char),
    (∀ c ∈ l, isDigitCh c = true) → headNotDigit rest →
    readDigits (l ++ rest) acc = (digitsVal acc l, rest)
  | [], acc, rest, _, hrest => by
    cases rest with
    | nil => simp [readDigits, digitsVal]
    | cons c r =>
      simp only [headNotDigit] at hrest
      simp [readDigits, digitsVal, hrest]
  | c :: l, acc, rest, hall, hrest => by
    have hc := hall c (by simp)
    simp only [List.cons_append, readDigits, hc, if_pos, digitsVal, List.foldl_cons]
    exact readDigits_spec l _ rest (fun x hx => hall x (by simp [hx])) hrest

theorem digitsVal_rev : ∀ (L : List ℕ) (acc : ℕ), (∀ d ∈ L, d < 10) →
    digitsVal acc (L.reverse.map digitCh) = acc * 10 ^ L.length + Nat.ofDigits 10 L
  | [], acc, _ => by simp [digitsVal, Nat.ofDigits]
  | d :: L, acc, h => by
    have ih := digitsVal_rev L acc (fun x hx => h x (by simp [hx]))
    have hd : d < 10 := h d (by simp)
    simp only [List.reverse_cons, List.map_append, List.map_cons, List.map_nil]
    unfold digitsVal at ih ⊢
    rw [List.foldl_append]
    simp only [List.foldl_cons, List.foldl_nil]
    rw [ih, digitCh_toNat hd, Nat.ofDigits_cons]
    rw [List.length_cons, pow_succ]
    have h48 : 48 + d - 48 = d := by omega
    rw [h48]
    ring

theorem digitsVal_natDigits (m : ℕ) : digitsVal 0 (natDigits m) = m := by
  unfold natDigits
  by_cases hm : m = 0
  · subst hm; rfl
  · rw [if_neg hm, natDigitsRev_eq_digits m m le_rfl,
      digitsVal_rev _ 0 (fun d hd => Nat.digits_lt_base (by norm_num) hd)]
    simp [Nat.ofDigits_digits]

theorem parse_num (g : ℕ) (n : ℤ) (rest : List Char) (hrest : headNotDigit rest) :
    parseA (g + 1) .value (printNum n ++ rest) = some (.val (.num n), rest) := by
  obtain ⟨c, l, hcons⟩ := List.exists_cons_of_ne_nil (natDigits_ne_nil (m := n.natAbs))
  have hc : isDigitCh c = true := natDigits_all_digits c (by rw [hcons]; simp)
  have hread : readDigits ((c :: l) ++ rest) 0 = (n.natAbs, rest) := by
    rw [← hcons, readDigits_spec (natDigits n.natAbs) 0 rest natDigits_all_digits hrest,
      digitsVal_natDigits]
  rw [List.cons_append] at hread
  by_cases hn : n < 0
  · rw [printNum, if_pos hn, hcons]
    simp only [List.cons_append, parseA]
    rw [skipWs_not_ws (by rfl)]
    simp only [show isDigitCh '-' = false from rfl, Bool.false_eq_true, if_false, reduceIte,
      hc, if_true, hread]
    have hcast : -(n.natAbs : ℤ) = n := by omega
    rw [hcast]
  · rw [printNum, if_neg hn, hcons]
    simp only [List.cons_append, parseA]
    rw [skipWs_not_ws (isWsCh_of_digit hc)]
    simp only [hc, if_true, hread]
    have hcast : (n.natAbs : ℤ) = n := by omega
    rw [hcast]

theorem needJ_pos (v : Json) : 1 ≤ needJ v := by
  cases v with
  | null => simp [needJ]
  | bool b => simp [needJ]
  | num n => simp [needJ]
  | str s => simp [needJ]
  | arr l => cases l <;> simp only [needJ] <;> omega
  | obj o => cases o <;> simp only [needJ] <;> omega

theorem parseA_value_space (f : ℕ) (s : List Char) :
    parseA f .value (' ' :: s) = parseA f .value s := by
  cases f with
  | zero => rfl
  | succ g =>
    simp only [parseA]
    rw [show skipWs (' ' :: s) = skipWs s from rfl]

theorem parseA_elems_space (f : ℕ) (s : List Char) :
    parseA f .elems (' ' :: s) = parseA f .elems s := by
  cases f with
  | zero => rfl
  | succ g =>
    simp only [parseA, parseA_value_space]

theorem parseA_fields_space (f : ℕ) (s : List Char) :
    parseA f .fields (' ' :: s) = parseA f .fields s := by
  cases f with
  | zero => rfl
  | succ g =>
    simp only [parseA]
    rw [show skipWs (' ' :: s) = skipWs s from rfl]

theorem mk_data (s : String) : String.mk s.data = s := rfl

theorem one_le_escapeChar_length (c : Char) : 1 ≤ (escapeChar c).length := by
  unfold escapeChar
  repeat' split
  all_goals simp [toHex4]

theorem escList_length (cs : List Char) : cs.length ≤ (escapeList cs).length := by
  induction cs with
  | nil => simp [escapeList]
  | cons c cs ih =>
    have := one_le_escapeChar_length c
    simp [escapeList]
    omega

theorem parse_str_value (g : ℕ) (s : String) (rest : List Char) :
    parseA (g + 1) .value (printStr s ++ rest) = some (.val (.str s), rest) := by
  simp only [printStr, List.cons_append, parseA]
  rw [skipWs_not_ws (by rfl)]
  simp only [show isDigitCh '"' = false from rfl, Bool.false_eq_true, if_false, reduceIte]
  rw [List.append_assoc, List.singleton_append]
  rw [parse_escList s.data _ rest (by
    have h1 := escList_length s.data
    have h2 : s.data.length = s.length := rfl
    simp [List.length_append]
    omega)]
  simp [mk_data]

/-- Every printed value starts with a non-whitespace character that is
neither `]` nor the closing brace (so the parser's lookahead picks the
value branch). -/
theorem printJ_head (v : Json) :
    ∃ c t, printJ v = c :: t ∧ isWsCh c = false ∧ c ≠ ']' ∧ c ≠ '\x7d' := by
  cases v with
  | null => exact ⟨'n', ['u', 'l', 'l'], by simp [printJ], by decide, by decide, by decide⟩
  | bool b =>
    cases b with
    | true => exact ⟨'t', ['r', 'u', 'e'], by simp [printJ], by decide, by decide, by decide⟩
    | false => exact ⟨'f', ['a', 'l', 's', 'e'], by simp [printJ], by decide, by decide, by decide⟩
  | num n =>
    by_cases hn : n < 0
    · refine ⟨'-', natDigits n.natAbs, ?_, by decide, by decide, by decide⟩
      simp [printJ, printNum, hn]
    · obtain ⟨c, l, hcons⟩ := List.exists_cons_of_ne_nil (natDigits_ne_nil (m := n.natAbs))
      have hc : isDigitCh c = true := natDigits_all_digits c (by rw [hcons]; simp)
      refine ⟨c, l, ?_, isWsCh_of_digit hc, ?_, ?_⟩
      · simp [printJ, printNum, hn, hcons]
      · intro h; rw [h] at hc; exact absurd hc (by decide)
      · intro h; rw [h] at hc; exact absurd hc (by decide)
  | str s => exact ⟨'"', escapeList s.data ++ ['"'], by simp [printJ, printStr], by decide, by decide, by decide⟩
  | arr l =>
    cases l with
    | nil => exact ⟨'[', [']'], by simp [printJ], by decide, by decide, by decide⟩
    | cons v tl => exact ⟨'[', printJ v ++ (printTailL tl ++ [']']), by simp [printJ], by decide, by decide, by decide⟩
  | obj o =>
    cases o with
    | nil => exact ⟨'\x7b', ['\x7d'], by simp [printJ], by decide, by decide, by decide⟩
    | cons k v tl => exact ⟨'\x7b', printStr k ++ ':' :: ' ' :: (printJ v ++ (printTailO tl ++ ['\x7d'])), by simp [printJ], by decide, by decide, by decide⟩

theorem headNotDigit_tailL (tl : JList) (rest : List Char) :
    headNotDigit (printTailL tl ++ ']' :: rest) := by
  cases tl <;> simp [printTailL, headNotDigit] <;> rfl

theorem headNotDigit_tailO (tl : JObj) (rest : List Char) :
    headNotDigit (printTailO tl ++ '\x7d' :: rest) := by
  cases tl <;> simp [printTailO, headNotDigit] <;> rfl

mutual
theorem parse_printJ (v : Json) (f : ℕ) (rest : List Char) (hf : needJ v ≤ f)
    (hrest : headNotDigit rest) :
    parseA f .value (printJ v ++ rest) = some (.val v, rest) := by
  obtain ⟨g, rfl⟩ : ∃ g, f = g + 1 := ⟨f - 1, by have := needJ_pos v; omega⟩
  cases v with
  | null => simp [parseA, printJ, skipWs, isWsCh, isDigitCh]
  | bool b => cases b <;> simp [parseA, printJ, skipWs, isWsCh, isDigitCh]
  | num n =>
    rw [show printJ (.num n) = printNum n from by simp [printJ]]
    exact parse_num g n rest hrest
  | str s =>
    rw [show printJ (.str s) = printStr s from by simp [printJ]]
    exact parse_str_value g s rest
  | arr l =>
    cases l with
    | nil => simp [parseA, printJ, skipWs, isWsCh, isDigitCh]
    | cons v tl =>
      have hlen : needE v tl ≤ g := by
        have h := hf
        simp only [needJ] at h
        omega
      obtain ⟨c, t, hcons, hws, hbr1, hbr2⟩ := printJ_head v
      rw [show printJ (.arr (.cons v tl)) ++ rest
            = '[' :: (printJ v ++ (printTailL tl ++ ']' :: rest)) from by
          simp [printJ, List.append_assoc]]
      simp only [parseA]
      rw [skipWs_not_ws (by rfl)]
      simp only [show isDigitCh '[' = false from rfl, Bool.false_eq_true, if_false, reduceIte]
      rw [hcons, List.cons_append, skipWs_not_ws hws]
      simp only [if_neg hbr1]
      rw [show c :: (t ++ (printTailL tl ++ ']' :: rest))
            = printJ v ++ (printTailL tl ++ ']' :: rest) from by rw [hcons, List.cons_append]]
      rw [parse_printE v tl g rest hlen]
      simp
  | obj o =>
    cases o with
    | nil => simp [parseA, printJ, skipWs, isWsCh, isDigitCh]
    | cons k v tl =>
      have hlen : needF v tl ≤ g := by
        have h := hf
        simp only [needJ] at h
        omega
      rw [show printJ (.obj (.cons k v tl)) ++ rest
            = '\x7b' :: (printStr k
                ++ (':' :: ' ' :: (printJ v ++ (printTailO tl ++ '\x7d' :: rest)))) from by
          simp [printJ, List.append_assoc]]
      simp only [parseA]
      rw [skipWs_not_ws (by rfl)]
      simp only [show isDigitCh '\x7b' = false from rfl, Bool.false_eq_true, if_false, reduceIte]
      rw [show printStr k ++ (':' :: ' ' :: (printJ v ++ (printTailO tl ++ '\x7d' :: rest)))
            = '"' :: (escapeList k.data
                ++ ('"' :: (':' :: ' ' :: (printJ v ++ (printTailO tl ++ '\x7d' :: rest)))))
          from by simp [printStr]]
      rw [skipWs_not_ws (by rfl)]
      simp only [reduceIte]
      rw [show ('"' : Char) :: (escapeList k.data
                ++ ('"' :: (':' :: ' ' :: (printJ v ++ (printTailO tl ++ '\x7d' :: rest)))))
            = printStr k ++ (':' :: ' ' :: (printJ v ++ (printTailO tl ++ '\x7d' :: rest)))
          from by simp [printStr]]
      rw [parse_printF k v tl g rest hlen]
      simp
termination_by sizeOf v

theorem parse_printE (v : Json) (tl : JList) (f : ℕ) (rest : List Char)
    (hf : needE v tl ≤ f) :
    parseA f .elems (printJ v ++ (printTailL tl ++ ']' :: rest))
      = some (.list (.cons v tl), rest) := by
  obtain ⟨g, rfl⟩ : ∃ g, f = g + 1 := ⟨f - 1, by
    have := needJ_pos v
    cases tl <;> simp only [needE] at hf ⊢ <;> omega⟩
  have hJ : needJ v ≤ g := by
    cases tl <;> simp only [needE] at hf <;> omega
  simp only [parseA]
  rw [parse_printJ v g (printTailL tl ++ ']' :: rest) hJ (headNotDigit_tailL tl rest)]
  cases tl with
  | nil =>
    simp [printTailL, skipWs, isWsCh]
  | cons v2 tl2 =>
    have hlen2 : needE v2 tl2 ≤ g := by
      simp only [needE] at hf
      omega
    rw [show printTailL (.cons v2 tl2) ++ ']' :: rest
          = ',' :: ' ' :: (printJ v2 ++ (printTailL tl2 ++ ']' :: rest)) from by
        simp [printTailL, List.append_assoc]]
    simp only [skipWs_not_ws (show isWsCh ',' = false from rfl), reduceIte,
      parseA_elems_space, parse_printE v2 tl2 g rest hlen2]
    simp
termination_by 1 + sizeOf v + sizeOf tl

theorem parse_printF (k : String) (v : Json) (tl : JObj) (f : ℕ) (rest : List Char)
    (hf : needF v tl ≤ f) :
    parseA f .fields (printStr k ++ (':' :: ' ' :: (printJ v ++ (printTailO tl ++ '\x7d' :: rest))))
      = some (.items (.cons k v tl), rest) := by
  obtain ⟨g, rfl⟩ : ∃ g, f = g + 1 := ⟨f - 1, by
    have := needJ_pos v
    cases tl <;> simp only [needF] at hf ⊢ <;> omega⟩
  have hJ : needJ v ≤ g := by
    cases tl <;> simp only [needF] at hf <;> omega
  simp only [parseA]
  rw [show printStr k ++ (':' :: ' ' :: (printJ v ++ (printTailO tl ++ '\x7d' :: rest)))
        = '"' :: (escapeList k.data
            ++ ('"' :: (':' :: ' ' :: (printJ v ++ (printTailO tl ++ '\x7d' :: rest)))))
      from by simp [printStr]]
  rw [skipWs_not_ws (by rfl)]
  simp only [reduceIte]
  rw [parse_escList k.data _ _ (by
    have h1 := escList_length k.data
    have h2 : k.data.length = k.length := rfl
    simp [List.length_append]
    omega)]
  simp only [skipWs_not_ws (show isWsCh ':' = false from rfl), reduceIte, parseA_value_space]
  rw [parse_printJ v g (printTailO tl ++ '\x7d' :: rest) hJ (headNotDigit_tailO tl rest)]
  cases tl with
  | nil =>
    simp [printTailO, skipWs, isWsCh, mk_data]
  | cons k2 v2 tl2 =>
    have hlen2 : needF v2 tl2 ≤ g := by
      simp only [needF] at hf
      omega
    rw [show printTailO (.cons k2 v2 tl2) ++ '\x7d' :: rest
          = ',' :: ' ' :: (printStr k2
              ++ (':' :: ' ' :: (printJ v2 ++ (printTailO tl2 ++ '\x7d' :: rest)))) from by
        simp [printTailO, List.append_assoc]]
    simp only [skipWs_not_ws (show isWsCh ',' = false from rfl), reduceIte,
      parseA_fields_space, parse_printF k2 v2 tl2 g rest hlen2]
    simp [mk_data]
termination_by 1 + sizeOf v + sizeOf tl
end

mutual
theorem needJ_le_len (v : Json) : needJ v ≤ (printJ v).length := by
  cases v with
  | null => simp [needJ, printJ]
  | bool b => cases b <;> simp [needJ, printJ]
  | num n =>
    have hpos : 0 < (natDigits n.natAbs).length := List.length_pos.mpr natDigits_ne_nil
    simp only [needJ]
    rw [show printJ (.num n) = printNum n from by simp [printJ]]
    unfold printNum
    split
    all_goals simp
    all_goals omega
  | str s =>
    simp only [needJ]
    rw [show printJ (.str s) = printStr s from by simp [printJ]]
    simp [printStr]
  | arr l =>
    cases l with
    | nil => simp [needJ, printJ]
    | cons v tl =>
      have h := needE_le_len v tl
      simp only [needJ]
      rw [show printJ (.arr (.cons v tl))
            = '[' :: ((printJ v ++ printTailL tl) ++ [']']) from by simp [printJ]]
      simp only [List.length_cons, List.length_append, List.length_singleton]
      simp [List.length_append] at h
      omega
  | obj o =>
    cases o with
    | nil => simp [needJ, printJ]
    | cons k v tl =>
      have h := needF_le_len v tl
      simp only [needJ]
      rw [show printJ (.obj (.cons k v tl))
            = '\x7b' :: ((printStr k ++ ':' :: ' ' :: printJ v ++ printTailO tl) ++ ['\x7d'])
          from by simp [printJ]]
      simp only [List.length_cons, List.length_append, List.length_singleton]
      simp [List.length_append] at h
      omega
termination_by sizeOf v

theorem needE_le_len (v : Json) (tl : JList) :
    needE v tl ≤ (printJ v ++ printTailL tl).length + 1 := by
  cases tl with
  | nil =>
    have h := needJ_le_len v
    simp only [needE]
    simp [printTailL, List.length_append]
    omega
  | cons v2 tl2 =>
    have h := needJ_le_len v
    have h2 := needE_le_len v2 tl2
    simp only [needE]
    rw [show printTailL (.cons v2 tl2) = ',' :: ' ' :: (printJ v2 ++ printTailL tl2) from by
      simp [printTailL]]
    simp only [List.length_append, List.length_cons] at h2 ⊢
    omega
termination_by 1 + sizeOf v + sizeOf tl

theorem needF_le_len (v : Json) (tl : JObj) :
    needF v tl ≤ (printJ v ++ printTailO tl).length + 1 := by
  cases tl with
  | nil =>
    have h := needJ_le_len v
    simp only [needF]
    simp [printTailO, List.length_append]
    omega
  | cons k2 v2 tl2 =>
    have h := needJ_le_len v
    have h2 := needF_le_len v2 tl2
    simp only [needF]
    rw [show printTailO (.cons k2 v2 tl2)
          = ',' :: ' ' :: (printStr k2 ++ ':' :: ' ' :: printJ v2 ++ printTailO tl2) from by
      simp [printTailO]]
    simp only [List.length_append, List.length_cons] at h2 ⊢
    omega
termination_by 1 + sizeOf v + sizeOf tl
end

/-- Decoding inverts encoding on every JSON value of the fragment. -/
theorem jsonLoads_jsonDumps (v : Json) : jsonLoads (jsonDumps v) = some v := by
  unfold jsonLoads jsonDumps
  rw [show (String.mk (printJ v)).length = (printJ v).length from rfl,
    show (String.mk (printJ v)).data = printJ v from rfl]
  have h := parse_printJ v ((printJ v).length + 1) []
    (by have := needJ_le_len v; omega) trivial
  rw [show printJ v ++ [] = printJ v from by simp] at h
  rw [h]
  simp [skipWs]

/-- C5: encoding a function-call argument mapping (a Python dict, i.e. a
`Json.obj`) with `json.dumps` before sending, then decoding the
transmitted string with `json.loads` on receipt, yields the original
mapping — for every mapping of the modelled JSON fragment (arbitrarily
nested null/bool/integer/string/array/object values, with the full
string-escaping rules). -/
theorem encode_decode_arguments_roundtrip (fields : JObj) :
    jsonLoads (jsonDumps (.obj fields)) = some (.obj fields) :=
  jsonLoads_jsonDumps (.obj fields)

/-- C3 counterexample: a backend response whose function-call arguments
payload is not valid JSON makes `run_prompt` raise (the `json.loads`
exception escapes as `Except.error`); no normal result with
`outcome = error` is returned. -/
theorem invalid_arguments_payload_raises :
    gpt_normalize_response
        ⟨some "function_call",
          ⟨"assistant", none, some ⟨"Database - List Database Servers", some "not json"⟩⟩⟩
      = .error "json.decoder.JSONDecodeError" ∧
    jsonLoads "not json" = none := by
  constructor <;> rfl

/-- C3 amended: whenever the function-call arguments payload is present,
non-empty, and not decodable, `run_prompt` does not contain the failure
into a normal result — the `json.loads` decoding exception propagates. -/
theorem invalid_arguments_payload_propagates (choice : ApiChoice)
    (call : RawFunctionCall) (argStr : String)
    (hfc : choice.message.function_call = some call)
    (hargs : call.arguments = some argStr)
    (hne : argStr ≠ "")
    (hbad : jsonLoads argStr = none) :
    gpt_normalize_response choice = .error "json.decoder.JSONDecodeError" := by
  simp only [gpt_normalize_response, hfc, hargs, if_neg hne, hbad]

/-- Witness for the amended C3 at a concrete undecodable payload. -/
theorem invalid_arguments_payload_propagates_witness :
    gpt_normalize_response
        ⟨some "function_call", ⟨"assistant", none, some ⟨"list_servers", some "oops ["⟩⟩⟩
      = .error "json.decoder.JSONDecodeError" :=
  invalid_arguments_payload_propagates
    ⟨some "function_call", ⟨"assistant", none, some ⟨"list_servers", some "oops ["⟩⟩⟩
    ⟨"list_servers", some "oops ["⟩ "oops [" rfl rfl (by decide) (by rfl)
